import Mathlib

/-!
Verification development for the link-health subsystem of the bookmark
manager: the client service `src/services/linkValidator.ts` and the server
endpoint `GET /api/link-health` (Express server source).

The embedding is shallow: each TypeScript/JavaScript function is translated
into a Lean function.  Host-platform effects are made explicit:
* the WHATWG URL constructor (`new URL(...)`) is a parameter
  `parse : String → Option UrlParts` — the repository does not implement URL
  parsing itself, it calls the platform's;
* the outcome of each network attempt (`fetch`, the server API call, the TCP
  probe) is an explicit environment value, so a theorem quantifying over
  environments covers every combination of network behaviours;
* timers and `AbortController`s are absorbed into those outcomes: a fetch
  that was aborted (by the timeout timer or an external signal) is the
  outcome `FetchOutcome.abortErr`.
-/

namespace LinkHealth

/-- `LinkHealthStatus` from linkValidator.ts: the public result type,
`"ok" | "dead"`. -/
inductive LinkHealthStatus where
  | ok
  | dead
deriving DecidableEq, Repr

/-- `InternalLinkHealthStatus` from linkValidator.ts: the mid-pipeline
tri-state, `LinkHealthStatus | "unknown"`.  The same three string values are
used by the server source (`classifyStatus`, `checkLinkHealth`). -/
inductive InternalLinkHealthStatus where
  | ok
  | dead
  | unknown
deriving DecidableEq, Repr

/-- Embedding of the TS `LinkHealthStatus ⊆ InternalLinkHealthStatus`
subtyping (in TS both are string unions, so an `ok`/`dead` value flows into
internal-status positions unchanged). -/
def LinkHealthStatus.toInternal : LinkHealthStatus → InternalLinkHealthStatus
  | .ok => .ok
  | .dead => .dead

/-- `classifyStatus` from the server source (part_006, lines 524-530):
status-code classification policy. -/
def classifyStatus (status : Nat) : InternalLinkHealthStatus :=
  if status = 404 ∨ status = 410 then .dead
  else if status = 401 ∨ status = 403 then .dead
  else if 500 ≤ status then .dead
  else if 200 ≤ status ∧ status < 400 then .ok
  else .unknown

/-- `classifyResponse` from linkValidator.ts (lines 20-28).  A browser
`Response` is observed through its `type === "opaque"` flag and its
`status`. -/
def classifyResponse (isOpaque : Bool) (status : Nat) : InternalLinkHealthStatus :=
  if isOpaque then .unknown
  else if status = 404 ∨ status = 410 then .dead
  else if status = 401 ∨ status = 403 then .dead
  else if 500 ≤ status then .dead
  else if 200 ≤ status ∧ status < 400 then .ok
  else .unknown

/-- Classification table transcribed from the spec's words (§4.1): 404/410,
401/403 → dead; ≥500 → dead; 200–399 → ok; anything else → unknown.  Used
only to compare the source functions against the spec (claim C5). -/
def specClassify (status : Nat) : InternalLinkHealthStatus :=
  if status = 404 ∨ status = 410 ∨ status = 401 ∨ status = 403 then .dead
  else if 500 ≤ status then .dead
  else if 200 ≤ status ∧ status ≤ 399 then .ok
  else .unknown

/-- What the host URL constructor hands back: the scheme (`u.protocol`, with
trailing colon, e.g. `"https:"`) and the serialization (`u.toString()`). -/
structure UrlParts where
  protocol : String
  href : String
deriving DecidableEq, Repr

/-- JS `String.prototype.trim` on the whitespace kinds relevant here. -/
def isJsSpace (c : Char) : Bool := c = ' ' ∨ c = '\t' ∨ c = '\n' ∨ c = '\r'

/-- JS `(rawUrl || "").trim()`. -/
def jsTrim (s : String) : String :=
  ⟨((s.data.dropWhile isJsSpace).reverse.dropWhile isJsSpace).reverse⟩

/-- `normalizeUrl` from linkValidator.ts (lines 30-46); the server source
(part_006, lines 507-522) is the same function.  `parse` stands for the
platform's `new URL(...)` (`none` = the constructor threw). -/
def normalizeUrl (parse : String → Option UrlParts) (rawUrl : String) : Option String :=
  let trimmed := jsTrim rawUrl
  if trimmed = "" then none
  else
    match parse trimmed with
    | some u => if u.protocol ≠ "http:" ∧ u.protocol ≠ "https:" then none else some u.href
    | none =>
      match parse ("https://" ++ trimmed) with
      | some u => some u.href
      | none => none

/-- Outcome of one `fetch` call as the calling code can observe it: a
response (opacity flag, status code, final URL after redirects), a rejection
with an `AbortError` (timeout timer or abort signal fired), or a rejection
with any other error. -/
inductive FetchOutcome where
  | resp (isOpaque : Bool) (status : Nat) (respUrl : String)
  | abortErr
  | netErr (msg : String)
deriving DecidableEq, Repr

/-- Network requests issued by one client-side `checkLinkHealth` call:
calls to the server `/api/link-health` endpoint, direct HEAD fetches and
direct GET fetches that actually went out on the network. -/
structure NetCounts where
  api : Nat
  head : Nat
  get : Nat
deriving DecidableEq, Repr

/-- Environment for one client-side check: the observable outcome of the
server-API call (already folded through `!resp.ok`/JSON-shape checks of
`checkLinkHealthViaApi`: `some ok`/`some dead` when the endpoint answered
definitively, `none` for every error/inconclusive path), and the outcomes
of the direct HEAD and GET fetches. -/
structure ClientNetEnv where
  api : Option LinkHealthStatus
  head : FetchOutcome
  get : FetchOutcome

/-- `checkLinkHealthViaApi` from linkValidator.ts (lines 85-111), observable
part: re-normalizes its argument and, when that succeeds, performs one API
fetch whose outcome (including `!resp.ok`, JSON parse failure, a status
field other than ok/dead, abort, network error — all of which the source
maps to `null`) is `env.api`.  Returns the result and the number of API
network calls made. -/
def checkLinkHealthViaApi (env : ClientNetEnv) (parse : String → Option UrlParts)
    (url : String) : Option LinkHealthStatus × Nat :=
  match normalizeUrl parse url with
  | none => (none, 0)
  | some _ => (env.api, 1)

/-- The client's GET fallback (linkValidator.ts lines 142-155): one GET
fetch; classify; `unknown` and every failure map to `dead`. -/
def getFallback (env : ClientNetEnv) (counts : NetCounts) :
    InternalLinkHealthStatus × NetCounts :=
  match env.get with
  | .resp o status _ =>
    if classifyResponse o status ≠ .unknown then
      (classifyResponse o status, { counts with get := counts.get + 1 })
    else (.dead, { counts with get := counts.get + 1 })
  | .abortErr => (.dead, { counts with get := counts.get + 1 })
  | .netErr _ => (.dead, { counts with get := counts.get + 1 })

/-- `checkLinkHealth` from linkValidator.ts (lines 113-160).  The result is
typed at the internal tri-state so that the "never `unknown`" contract is a
theorem rather than a typing artifact; the counts record the network
requests issued. -/
def checkLinkHealthClient (env : ClientNetEnv) (parse : String → Option UrlParts)
    (url : String) : InternalLinkHealthStatus × NetCounts :=
  match normalizeUrl parse url with
  | none => (.dead, ⟨0, 0, 0⟩)
  | some normalized =>
    match checkLinkHealthViaApi env parse normalized with
    | (some s, apiCalls) => (s.toInternal, ⟨apiCalls, 0, 0⟩)
    | (none, apiCalls) =>
      match env.head with
      | .resp o status _ =>
        if classifyResponse o status ≠ .unknown then (classifyResponse o status, ⟨apiCalls, 1, 0⟩)
        else if status = 405 then getFallback env ⟨apiCalls, 1, 0⟩
        else (.dead, ⟨apiCalls, 1, 0⟩)
      | .abortErr => (.dead, ⟨apiCalls, 1, 0⟩)
      | .netErr _ => getFallback env ⟨apiCalls, 1, 0⟩

/-- Result record of the server-side `checkLinkHealth` (part_006, lines
564-597): `{status, httpStatus?, finalUrl?, error?}`. -/
structure ServerHttpResult where
  status : InternalLinkHealthStatus
  httpStatus : Option Nat := none
  finalUrl : Option String := none
  error : Option String := none
deriving DecidableEq, Repr

/-- Environment for one server-side HTTP check: outcomes of its HEAD and GET
fetches. -/
structure ServerNetEnv where
  head : FetchOutcome
  get : FetchOutcome

/-- The server's GET fallback (part_006, lines 582-589) together with the
outer catch (lines 591-593): classify a response (even `unknown` is returned
as-is), `AbortError` → `unknown`/`"timeout"`, other errors → `dead`.
Second component: GET requests that went out on the network (here: one). -/
def serverGetFallback (env : ServerNetEnv) : ServerHttpResult × Nat :=
  match env.get with
  | .resp _ status respUrl =>
    ({ status := classifyStatus status, httpStatus := some status,
       finalUrl := some respUrl }, 1)
  | .abortErr => ({ status := .unknown, error := some "timeout" }, 1)
  | .netErr msg => ({ status := .dead, error := some msg }, 1)

/-- Server-side `checkLinkHealth` (part_006, lines 564-597).  When the HEAD
attempt itself was aborted (the timeout timer fired), the inner catch does
invoke `fetch` with GET, but the shared signal is already aborted, so that
call rejects with `AbortError` immediately without issuing a network
request, and the outer catch returns `unknown`/`"timeout"`; the embedding
returns that composite outcome directly with a GET network count of 0. -/
def serverCheckLinkHealth (env : ServerNetEnv) : ServerHttpResult × Nat :=
  match env.head with
  | .resp _ status respUrl =>
    if classifyStatus status ≠ .unknown then
      ({ status := classifyStatus status, httpStatus := some status,
         finalUrl := some respUrl }, 0)
    else if status = 405 then serverGetFallback env
    else ({ status := .unknown, httpStatus := some status, finalUrl := some respUrl }, 0)
  | .abortErr => ({ status := .unknown, error := some "timeout" }, 0)
  | .netErr _ => serverGetFallback env

/-- `checkTcpConnectivity` result (part_006, lines 532-562):
`{status: ok, port}` or `{status: dead, error}`. -/
structure TcpResult where
  status : LinkHealthStatus
  port : Option Nat := none
  error : Option String := none
deriving DecidableEq, Repr

/-- Environment for the endpooint: the HTTP-check fetch outcomes and, for
the TCP probe, its result as a function of the timeout the endpoint passes
to it (this makes the 3000 ms cap visible in theorems). -/
structure EndpointEnv where
  http : ServerNetEnv
  tcp : Nat → TcpResult

/-- The endpoint's JSON answers, one constructor per `res.json`/`res.status`
shape of the handler (part_006, lines 845-871). -/
inductive EndpointResponse where
  | badRequest
  | tcpResp (url : String) (tcp : TcpResult)
  | httpResp (url : String) (mode : String) (http : ServerHttpResult)
  | autoTcpResp (url : String) (tcp : TcpResult) (httpFallback : ServerHttpResult)
deriving DecidableEq, Repr

/-- `Number(req.query.timeoutMs || '')` and the positivity check (part_006,
lines 852-853): a missing/unparseable/non-positive parameter falls back to
6000. -/
def resolveTimeout (timeoutParam : Option Nat) : Nat :=
  match timeoutParam with
  | some t => if 0 < t then t else 6000
  | none => 6000

/-- JS `toLowerCase` on the mode parameter. -/
def jsToLower (s : String) : String := ⟨s.data.map Char.toLower⟩

/-- `GET /api/link-health` handler (part_006, lines 845-871).  Returns the
response and the number of HTTP checks and TCP probes run. -/
def linkHealthEndpoint (env : EndpointEnv) (parse : String → Option UrlParts)
    (urlParam : Option String) (modeParam : Option String)
    (timeoutParam : Option Nat) : EndpointResponse × Nat × Nat :=
  match normalizeUrl parse (urlParam.getD "") with
  | none => (.badRequest, 0, 0)
  | some normalized =>
    if jsToLower (modeParam.getD "auto") = "tcp" ∨ jsToLower (modeParam.getD "auto") = "ping" then
      (.tcpResp normalized (env.tcp (min (resolveTimeout timeoutParam) 3000)), 0, 1)
    else if jsToLower (modeParam.getD "auto") = "http" then
      (.httpResp normalized "http" (serverCheckLinkHealth env.http).1, 1, 0)
    else if (serverCheckLinkHealth env.http).1.status = .unknown then
      (.autoTcpResp normalized (env.tcp (min (resolveTimeout timeoutParam) 3000))
        (serverCheckLinkHealth env.http).1, 1, 1)
    else (.httpResp normalized "auto" (serverCheckLinkHealth env.http).1, 1, 0)

/-! ## Batch scheduler (`batchCheckLinks`, linkValidator.ts lines 168-227)

The scheduler runs inside a single-threaded event loop: a worker's only
suspension point is its `await checkLinkHealth(...)`; everything between two
suspension points (claiming the next queue index via `cursor++`, recording
the result, updating the in-memory cache map, bumping `processed`, calling
`onProgress`) runs atomically.  A run is therefore modelled as a state
machine driven by a schedule of events: `complete i` ("the in-flight check
of queue index `i` resolves, and its worker runs up to its next suspension
point or termination") and `abort` ("the external `AbortSignal` fires").
Quantifying over schedules covers every interleaving of worker completions
and the abort.  The outcome of each individual `checkLinkHealth` call is
abstracted by the environment: `checkStatus i` when the signal had not fired
when the check resolved, `abortStatus i` when it had (on the main code path
an aborted fetch rejects with `AbortError` and the client check maps it to
`dead`, but the model leaves the value abstract). -/

/-- One `{id, url}` pair handed to `batchCheckLinks` (also reused for queue
entries, which hold the normalized URL in the `url` field, exactly as the
source pushes `{ id: b.id, url: normalized }`). -/
structure Bookmark where
  id : String
  url : String
deriving DecidableEq, Repr

/-- `LinkCheckResult` from linkValidator.ts (the optional `error` field is
never assigned anywhere in the source, so it is omitted). -/
structure LinkCheckResult where
  id : String
  url : String
  status : LinkHealthStatus
deriving DecidableEq, Repr

/-- One persisted cache entry, `{status, checkedAt}`. -/
structure CacheEntry where
  status : LinkHealthStatus
  checkedAt : Nat
deriving DecidableEq, Repr

/-- Insertion-ordered string-keyed map, the shallow embedding of both the JS
`Map` (`resultsById`) and the plain cache object: update in place when the
key exists, append otherwise. -/
def setAssoc {α : Type} (l : List (String × α)) (k : String) (v : α) :
    List (String × α) :=
  match l with
  | [] => [(k, v)]
  | p :: rest => if p.1 = k then (k, v) :: rest else p :: setAssoc rest k v

/-- Key lookup in the insertion-ordered map. -/
def lookupAssoc {α : Type} (l : List (String × α)) (k : String) : Option α :=
  match l with
  | [] => none
  | p :: rest => if p.1 = k then some p.2 else lookupAssoc rest k

/-- Per-check outcomes of the batch run, supplied by the environment.
`timeOf i` is the `Date.now()` observed when check `i` completes. -/
structure BatchEnv where
  checkStatus : Nat → LinkHealthStatus
  abortStatus : Nat → LinkHealthStatus
  timeOf : Nat → Nat

/-- Everything fixed for one `batchCheckLinks` invocation: arguments,
the persisted cache blob (`localStorage`, `none` = key absent), the
`Date.now()` at entry, and the per-check environment. -/
structure BatchSetup where
  parse : String → Option UrlParts
  bookmarks : List Bookmark
  requested : Option Nat
  cacheTtlMs : Option Nat
  forceRefresh : Bool
  blob : Option (List (String × CacheEntry))
  now : Nat
  env : BatchEnv

/-- `options?.cacheTtlMs ?? 12 * 60 * 60 * 1000`. -/
def cacheTtl (s : BatchSetup) : Nat := s.cacheTtlMs.getD (12 * 60 * 60 * 1000)

/-- `readCache()` (lines 65-75): the parsed blob, or an empty object. -/
def readCacheBlob (s : BatchSetup) : List (String × CacheEntry) := s.blob.getD []

/-- The partition test `!forceRefresh && cached && now - cached.checkedAt <=
cacheTtlMs` (line 193): the cached status when it is fresh, else `none`.
(JS `now - checkedAt` can be negative for a future entry and then passes the
`<=` test; truncated `Nat` subtraction gives `0`, the same verdict.) -/
def cacheFresh (s : BatchSetup) (normalized : String) : Option LinkHealthStatus :=
  match lookupAssoc (readCacheBlob s) normalized with
  | some ce =>
    if s.forceRefresh = false ∧ s.now - ce.checkedAt ≤ cacheTtl s then some ce.status
    else none
  | none => none

/-- The partition step for one bookmark (lines 186-198), resolved half:
`some result` when the bookmark is settled without network work (invalid
URL, or fresh cache entry), `none` when it is enqueued. -/
def resolveOne (s : BatchSetup) (b : Bookmark) : Option LinkCheckResult :=
  match normalizeUrl s.parse b.url with
  | none => some ⟨b.id, b.url, .dead⟩
  | some n =>
    match cacheFresh s n with
    | some st => some ⟨b.id, b.url, st⟩
    | none => none

/-- The partition step for one bookmark, queued half: the queue entry
`{id, url: normalized}` when the bookmark needs an active check. -/
def queueOne (s : BatchSetup) (b : Bookmark) : Option Bookmark :=
  match normalizeUrl s.parse b.url with
  | none => none
  | some n =>
    match cacheFresh s n with
    | some _ => none
    | none => some ⟨b.id, n⟩

/-- The work queue, in input order (line 197). -/
def queueOf (s : BatchSetup) : List Bookmark := s.bookmarks.filterMap (queueOne s)

/-- One iteration of the partition loop acting on `resultsById`. -/
def resolveStep (s : BatchSetup) (acc : List (String × LinkCheckResult)) (b : Bookmark) :
    List (String × LinkCheckResult) :=
  match resolveOne s b with
  | some e => setAssoc acc b.id e
  | none => acc

/-- `resultsById` right after the partition loop (lines 183-198): the
immediately-resolved targets.  The source fills the map and the queue in one
loop; since each bookmark goes to exactly one of the two, the two passes
are equivalent. -/
def results0 (s : BatchSetup) : List (String × LinkCheckResult) :=
  s.bookmarks.foldl (resolveStep s) []

/-- `resultsById.size` at the initial progress report. -/
def initCount (s : BatchSetup) : Nat := (results0 s).length

/-- `Math.max(1, Math.min(options?.concurrency ?? 20, total || 1))`
(line 174): the number of `worker()` promises created at line 221. -/
def numWorkers (s : BatchSetup) : Nat :=
  max 1 (min (s.requested.getD 20)
    (if s.bookmarks.length = 0 then 1 else s.bookmarks.length))

/-- Scheduler events: `complete i` = the in-flight check of queue index `i`
resolves (its worker then records/claims synchronously); `abort` = the
external signal fires. -/
inductive BatchEvent where
  | abort
  | complete (i : Nat)
deriving DecidableEq, Repr

/-- The mutable state of one batch run.  `flights` holds the queue indices
currently being checked (one per active worker); `doneWorkers` counts
workers whose loop has exited; `durable` is the persisted blob, untouched
until the final `writeCache`. -/
structure RunState where
  cursor : Nat
  flights : List Nat
  doneWorkers : Nat
  results : List (String × LinkCheckResult)
  cache : List (String × CacheEntry)
  processed : Nat
  progress : List (Nat × Nat)
  aborted : Bool
  durable : Option (List (String × CacheEntry))

/-- The state after lines 180-221 have run up to the first suspension: the
partition is done, initial progress was reported once (line 201), and each
of the `numWorkers` workers has synchronously claimed `cursor++` at its loop
top — worker `j` holds index `j` when `j < queue.length`, otherwise its loop
already exited. -/
def initState (s : BatchSetup) : RunState :=
  { cursor := numWorkers s
    flights := List.range (min (numWorkers s) (queueOf s).length)
    doneWorkers := numWorkers s - min (numWorkers s) (queueOf s).length
    results := results0 s
    cache := readCacheBlob s
    processed := initCount s
    progress := [(initCount s, s.bookmarks.length)]
    aborted := false
    durable := s.blob }

/-- The status an in-flight `checkLinkHealth` call resolves with: the live
outcome while the signal has not fired, the post-abort outcome (on the main
code path `dead`, because the aborted fetch rejects with `AbortError`)
afterwards. -/
def flightStatus (s : BatchSetup) (st : RunState) (i : Nat) : LinkHealthStatus :=
  if st.aborted then s.env.abortStatus i else s.env.checkStatus i

/-- The synchronous tail of a worker iteration (lines 212-217): record the
result keyed by id, write the in-memory cache entry keyed by the normalized
URL, bump `processed`, call `onProgress`. -/
def recordResult (s : BatchSetup) (st : RunState) (i : Nat) (item : Bookmark) : RunState :=
  { st with
    results := setAssoc st.results item.id ⟨item.id, item.url, flightStatus s st i⟩
    cache := setAssoc st.cache item.url ⟨flightStatus s st i, s.env.timeOf i⟩
    processed := st.processed + 1
    progress := st.progress ++ [(st.processed + 1, s.bookmarks.length)] }

/-- One scheduler event (worker body, lines 205-219).  On `complete i` with
`i` in flight: run the synchronous tail (`recordResult`), then let that
worker run its loop top: stop if the signal has fired (line 207), otherwise
claim `cursor++` and stay in flight if it is still a valid index (lines
208-209).  Events naming an index not in flight cannot occur and leave the
state unchanged. -/
def stepRun (s : BatchSetup) (st : RunState) : BatchEvent → RunState
  | .abort => { st with aborted := true }
  | .complete i =>
    if i ∈ st.flights then
      match (queueOf s)[i]? with
      | some item =>
        if st.aborted then
          { recordResult s st i item with
            flights := st.flights.erase i
            doneWorkers := st.doneWorkers + 1 }
        else if st.cursor < (queueOf s).length then
          { recordResult s st i item with
            flights := st.cursor :: st.flights.erase i
            cursor := st.cursor + 1 }
        else
          { recordResult s st i item with
            flights := st.flights.erase i
            doneWorkers := st.doneWorkers + 1
            cursor := st.cursor + 1 }
      | none => st
    else st

/-- A whole run: fold the schedule over the initial state. -/
def runBatch (s : BatchSetup) (evs : List BatchEvent) : RunState :=
  evs.foldl (stepRun s) (initState s)

/-- Line 222-224: after `Promise.all` resolves, the in-memory cache map is
persisted once — unless the external signal fired. -/
def finalDurable (_s : BatchSetup) (st : RunState) : Option (List (String × CacheEntry)) :=
  if st.aborted then st.durable else some st.cache

/-- Number of `writeCache` (durable `localStorage.setItem`) calls the whole
run performs. -/
def durableWrites (st : RunState) : Nat := if st.aborted then 0 else 1

/-- Line 226: the returned array, in input order, with a `dead` placeholder
for any target whose result was never recorded. -/
def output (s : BatchSetup) (st : RunState) : List LinkCheckResult :=
  s.bookmarks.map (fun b => (lookupAssoc st.results b.id).getD ⟨b.id, b.url, .dead⟩)

/-- Number of queue items whose check has completed: every index below the
claimed region `min cursor queueLength` that is no longer in flight. -/
def completedCount (s : BatchSetup) (st : RunState) : Nat :=
  min st.cursor (queueOf s).length - st.flights.length

/-- Structural invariant of every reachable batch-run state: worker
conservation, the in-flight indices are distinct claimed-but-unfinished
queue positions, ids of unfinished queue items are absent from
`resultsById`, recorded values carry their key as id, an unexhausted
non-aborted queue keeps at least one worker alive, and the durable blob is
untouched. -/
structure RunInv (s : BatchSetup) (st : RunState) : Prop where
  wcount : st.flights.length + st.doneWorkers = numWorkers s
  flen : st.flights.length ≤ min st.cursor (queueOf s).length
  bound : ∀ i ∈ st.flights, i < (queueOf s).length ∧ i < st.cursor
  nodupFlights : st.flights.Nodup
  unrecorded : ∀ i ∈ st.flights, ∀ item, (queueOf s)[i]? = some item →
    lookupAssoc st.results item.id = none
  fresh : ∀ i, st.cursor ≤ i → ∀ item, (queueOf s)[i]? = some item →
    lookupAssoc st.results item.id = none
  keysOk : ∀ k r, lookupAssoc st.results k = some r → r.id = k
  live : st.aborted = false → st.cursor < (queueOf s).length → st.flights ≠ []
  durableEq : st.durable = s.blob

/-- Invariant of runs in which the abort signal has not fired: additionally,
every completed queue item is recorded with its queue entry and its live
check status, and the processed counter / progress log are exactly the
initial report followed by one increment per completion. -/
structure RunInvNA (s : BatchSetup) (st : RunState) extends RunInv s st : Prop where
  notAborted : st.aborted = false
  charDone : ∀ i, i < min st.cursor (queueOf s).length → i ∉ st.flights →
    ∀ item, (queueOf s)[i]? = some item →
    lookupAssoc st.results item.id = some ⟨item.id, item.url, s.env.checkStatus i⟩
  processedEq : st.processed = initCount s + completedCount s st
  progressEq : st.progress =
    (List.range (completedCount s st + 1)).map
      (fun j => (initCount s + j, s.bookmarks.length))

/-! ## Concrete instances used by witnesses and counterexamples -/

/-- A concrete instance of the platform URL constructor, recording what
`new URL(...)` actually does on the handful of strings the concrete runs
below use: bare host names throw (no scheme), so only their
`https://`-prepended forms parse, serializing with a trailing slash; strings
with spaces throw either way. -/
def demoParse (s : String) : Option UrlParts :=
  if s = "https://example.com" then some ⟨"https:", "https://example.com/"⟩
  else if s = "https://a.example" then some ⟨"https:", "https://a.example/"⟩
  else if s = "https://b.example" then some ⟨"https:", "https://b.example/"⟩
  else if s = "https://c.example" then some ⟨"https:", "https://c.example/"⟩
  else if s = "https://d.example" then some ⟨"https:", "https://d.example/"⟩
  else if s = "https://e.example" then some ⟨"https:", "https://e.example/"⟩
  else if s = "https://cached.example" then some ⟨"https:", "https://cached.example/"⟩
  else if s = "https://cached2.example" then some ⟨"https:", "https://cached2.example/"⟩
  else none

/-- Concrete client network environment (server API inconclusive, direct
fetches abort) for the C8 witness. -/
def demoClientEnv : ClientNetEnv := ⟨none, .abortErr, .abortErr⟩

/-- Client environment for the C6 witness: API call failed, HEAD timed out,
and a GET — were one ever issued — would return 200. -/
def timeoutClientEnv : ClientNetEnv := ⟨none, .abortErr, .resp false 200 "https://example.com/"⟩

/-- Batch-check environment for the concrete runs: live checks come back
`ok`, checks resolving after the abort come back `dead` (an aborted fetch
rejects with `AbortError`, which the client check maps to `dead`). -/
def demoBatchEnv : BatchEnv := ⟨fun _ => .ok, fun _ => .dead, fun _ => 2000⟩

/-- Five bookmarks, all with a fresh cache entry: the all-cached batch run
of the C2 counterexample (spec §8's "5 targets, all cached" example). -/
def allCachedSetup : BatchSetup :=
  { parse := demoParse
    bookmarks := [⟨"a", "a.example"⟩, ⟨"b", "b.example"⟩, ⟨"c", "c.example"⟩,
                  ⟨"d", "d.example"⟩, ⟨"e", "e.example"⟩]
    requested := none
    cacheTtlMs := none
    forceRefresh := false
    blob := some [("https://a.example/", ⟨.ok, 1000⟩), ("https://b.example/", ⟨.ok, 1000⟩),
                  ("https://c.example/", ⟨.dead, 1000⟩), ("https://d.example/", ⟨.ok, 1000⟩),
                  ("https://e.example/", ⟨.ok, 1000⟩)]
    now := 1500
    env := demoBatchEnv }

/-- Five uncached bookmarks checked with `concurrency = 1`: the mid-run
abort scenario of the C3 witness (2 of 5 complete, then the signal fires,
the in-flight third check resolves as aborted, targets 4 and 5 are never
claimed). -/
def abortSetup : BatchSetup :=
  { parse := demoParse
    bookmarks := [⟨"a", "a.example"⟩, ⟨"b", "b.example"⟩, ⟨"c", "c.example"⟩,
                  ⟨"d", "d.example"⟩, ⟨"e", "e.example"⟩]
    requested := some 1
    cacheTtlMs := none
    forceRefresh := false
    blob := some []
    now := 1500
    env := demoBatchEnv }

/-- The C3 witness schedule: two completions, the abort, then the in-flight
check resolves. -/
def abortSchedule : List BatchEvent :=
  [.complete 0, .complete 1, .abort, .complete 2]

/-- One uncached bookmark over a non-trivial stored blob: the C4
counterexample run. -/
def oneUncachedSetup : BatchSetup :=
  { parse := demoParse
    bookmarks := [⟨"a", "a.example"⟩]
    requested := none
    cacheTtlMs := none
    forceRefresh := false
    blob := some [("https://old.example/", ⟨.ok, 5⟩)]
    now := 1500
    env := demoBatchEnv }

/-- Two bookmarks, both served by fresh cache entries: the C9
counterexample (empty queue, yet two workers are launched). -/
def twoCachedSetup : BatchSetup :=
  { parse := demoParse
    bookmarks := [⟨"a", "a.example"⟩, ⟨"b", "b.example"⟩]
    requested := none
    cacheTtlMs := none
    forceRefresh := false
    blob := some [("https://a.example/", ⟨.ok, 1000⟩), ("https://b.example/", ⟨.ok, 1000⟩)]
    now := 1500
    env := demoBatchEnv }

/-- One actively-checked bookmark (raw URL without scheme) plus one
cache-resolved bookmark (raw URL without scheme): the C10/C2 witness run,
where the worker result carries the normalized URL while the cached result
echoes the raw input. -/
def mixedSetup : BatchSetup :=
  { parse := demoParse
    bookmarks := [⟨"w", "example.com"⟩, ⟨"c", "cached.example"⟩]
    requested := none
    cacheTtlMs := none
    forceRefresh := false
    blob := some [("https://cached.example/", ⟨.ok, 1000⟩)]
    now := 1500
    env := demoBatchEnv }

/-! ## Map lemmas -/

theorem lookupAssoc_setAssoc {α : Type} (l : List (String × α)) (k k₂ : String) (v : α) :
    lookupAssoc (setAssoc l k v) k₂ = if k₂ = k then some v else lookupAssoc l k₂ := by
  induction l with
  | nil =>
    simp only [setAssoc, lookupAssoc]
    by_cases h : k₂ = k
    · rw [if_pos h.symm, if_pos h]
    · rw [if_neg (fun hh => h hh.symm), if_neg h]
  | cons p rest ih =>
    simp only [setAssoc]
    by_cases hp : p.1 = k
    · rw [if_pos hp]
      simp only [lookupAssoc]
      by_cases h2 : k₂ = k
      · rw [if_pos h2.symm, if_pos h2]
      · rw [if_neg (fun hh => h2 hh.symm), if_neg h2,
          if_neg (show ¬ p.1 = k₂ from hp ▸ fun hh => h2 hh.symm)]
    · rw [if_neg hp]
      simp only [lookupAssoc]
      by_cases hpk : p.1 = k₂
      · rw [if_pos hpk, if_neg (fun hh : k₂ = k => hp (hpk.trans hh)), if_pos hpk]
      · rw [if_neg hpk, ih]
        by_cases h2 : k₂ = k
        · rw [if_pos h2, if_pos h2]
        · rw [if_neg h2, if_neg h2, if_neg hpk]

theorem setAssoc_length_of_none {α : Type} (l : List (String × α)) (k : String) (v : α)
    (h : lookupAssoc l k = none) : (setAssoc l k v).length = l.length + 1 := by
  induction l with
  | nil => simp [setAssoc]
  | cons p rest ih =>
    by_cases hp : p.1 = k
    · simp [lookupAssoc, hp] at h
    · simp only [lookupAssoc, if_neg hp] at h
      simp [setAssoc, hp, ih h]

/-! ## Partition lemmas -/

theorem mem_map_id {rest : List Bookmark} {b₂ : Bookmark} (hb : b₂ ∈ rest) {k : String}
    (hh : b₂.id = k) : k ∈ rest.map (·.id) := by
  rw [← hh]; exact List.mem_map_of_mem _ hb

theorem resolveStep_of_none (s : BatchSetup) (acc : List (String × LinkCheckResult))
    (b : Bookmark) (h : resolveOne s b = none) : resolveStep s acc b = acc := by
  unfold resolveStep; rw [h]

theorem resolveStep_of_some (s : BatchSetup) (acc : List (String × LinkCheckResult))
    (b : Bookmark) (e : LinkCheckResult) (h : resolveOne s b = some e) :
    resolveStep s acc b = setAssoc acc b.id e := by
  unfold resolveStep; rw [h]

theorem resolveOne_fields (s : BatchSetup) (b : Bookmark) (e : LinkCheckResult)
    (h : resolveOne s b = some e) : e.id = b.id ∧ e.url = b.url := by
  unfold resolveOne at h
  cases hn : normalizeUrl s.parse b.url
  · simp only [hn, Option.some.injEq] at h
    exact ⟨by rw [← h], by rw [← h]⟩
  · rename_i n
    simp only [hn] at h
    cases hc : cacheFresh s n
    · simp [hc] at h
    · simp only [hc, Option.some.injEq] at h
      exact ⟨by rw [← h], by rw [← h]⟩

theorem queueOne_of_resolveOne_none (s : BatchSetup) (b : Bookmark)
    (h : resolveOne s b = none) :
    ∃ n, normalizeUrl s.parse b.url = some n ∧ cacheFresh s n = none ∧
      queueOne s b = some ⟨b.id, n⟩ := by
  unfold resolveOne at h
  cases hn : normalizeUrl s.parse b.url
  · simp [hn] at h
  · rename_i n
    simp only [hn] at h
    cases hc : cacheFresh s n
    · exact ⟨n, rfl, hc, by unfold queueOne; simp only [hn, hc]⟩
    · simp [hc] at h

theorem resolveOne_none_of_queueOne (s : BatchSetup) (b : Bookmark) (q : Bookmark)
    (h : queueOne s b = some q) :
    resolveOne s b = none ∧ q.id = b.id ∧ normalizeUrl s.parse b.url = some q.url := by
  unfold queueOne at h
  cases hn : normalizeUrl s.parse b.url
  · simp [hn] at h
  · rename_i n
    simp only [hn] at h
    cases hc : cacheFresh s n
    · simp only [hc, Option.some.injEq] at h
      refine ⟨by unfold resolveOne; simp only [hn, hc], ?_, ?_⟩
      · rw [← h]
      · rw [← h]
    · simp [hc] at h

theorem queueOne_none_of_resolveOne (s : BatchSetup) (b : Bookmark) (e : LinkCheckResult)
    (h : resolveOne s b = some e) : queueOne s b = none := by
  unfold resolveOne at h
  unfold queueOne
  cases hn : normalizeUrl s.parse b.url
  · simp only [hn]
  · rename_i n
    simp only [hn] at h ⊢
    cases hc : cacheFresh s n
    · simp [hc] at h
    · simp only [hc]

theorem results0Go_lookup_skip (s : BatchSetup) (bs : List Bookmark)
    (acc : List (String × LinkCheckResult)) (k : String) (hk : ∀ b ∈ bs, b.id ≠ k) :
    lookupAssoc (bs.foldl (resolveStep s) acc) k = lookupAssoc acc k := by
  induction bs generalizing acc with
  | nil => rfl
  | cons b rest ih =>
    simp only [List.foldl_cons]
    rw [ih _ (fun b hb => hk b (List.mem_cons_of_mem _ hb))]
    cases hr : resolveOne s b
    · rw [resolveStep_of_none s acc b hr]
    · rename_i e
      rw [resolveStep_of_some s acc b e hr, lookupAssoc_setAssoc,
        if_neg (fun hh => hk b (List.mem_cons_self b rest) hh.symm)]

theorem results0Go_lookup_resolved (s : BatchSetup) (bs : List Bookmark)
    (acc : List (String × LinkCheckResult)) (b : Bookmark) (e : LinkCheckResult)
    (hN : (bs.map (·.id)).Nodup) (hb : b ∈ bs) (he : resolveOne s b = some e) :
    lookupAssoc (bs.foldl (resolveStep s) acc) b.id = some e := by
  induction bs generalizing acc with
  | nil => cases hb
  | cons b₀ rest ih =>
    simp only [List.map_cons, List.nodup_cons] at hN
    rcases List.mem_cons.1 hb with rfl | hbr
    · simp only [List.foldl_cons]
      rw [results0Go_lookup_skip s rest _ b.id
        (fun b₂ hb₂ hid => hN.1 (mem_map_id hb₂ hid)),
        resolveStep_of_some s acc b e he, lookupAssoc_setAssoc, if_pos rfl]
    · simp only [List.foldl_cons]
      exact ih _ hN.2 hbr

theorem results0Go_lookup_queued (s : BatchSetup) (bs : List Bookmark)
    (acc : List (String × LinkCheckResult)) (b : Bookmark)
    (hN : (bs.map (·.id)).Nodup) (hb : b ∈ bs) (he : resolveOne s b = none) :
    lookupAssoc (bs.foldl (resolveStep s) acc) b.id = lookupAssoc acc b.id := by
  induction bs generalizing acc with
  | nil => cases hb
  | cons b₀ rest ih =>
    simp only [List.map_cons, List.nodup_cons] at hN
    rcases List.mem_cons.1 hb with rfl | hbr
    · simp only [List.foldl_cons]
      rw [results0Go_lookup_skip s rest _ b.id
        (fun b₂ hb₂ hid => hN.1 (mem_map_id hb₂ hid)),
        resolveStep_of_none s acc b he]
    · simp only [List.foldl_cons]
      rw [ih _ hN.2 hbr]
      cases hr : resolveOne s b₀
      · rw [resolveStep_of_none s acc b₀ hr]
      · rename_i e₀
        rw [resolveStep_of_some s acc b₀ e₀ hr, lookupAssoc_setAssoc,
          if_neg (fun hh => hN.1 (mem_map_id hbr hh))]

theorem results0Go_keysOk (s : BatchSetup) (bs : List Bookmark)
    (acc : List (String × LinkCheckResult))
    (hacc : ∀ k r, lookupAssoc acc k = some r → r.id = k) :
    ∀ k r, lookupAssoc (bs.foldl (resolveStep s) acc) k = some r → r.id = k := by
  induction bs generalizing acc with
  | nil => exact hacc
  | cons b rest ih =>
    simp only [List.foldl_cons]
    refine ih _ (fun k r hkr => ?_)
    cases hr : resolveOne s b
    · rw [resolveStep_of_none s acc b hr] at hkr
      exact hacc k r hkr
    · rename_i e
      rw [resolveStep_of_some s acc b e hr, lookupAssoc_setAssoc] at hkr
      by_cases hk : k = b.id
      · rw [if_pos hk] at hkr
        injection hkr with hkr
        rw [← hkr, (resolveOne_fields s b e hr).1, hk]
      · rw [if_neg hk] at hkr
        exact hacc k r hkr

theorem results0Go_length (s : BatchSetup) (bs : List Bookmark)
    (acc : List (String × LinkCheckResult))
    (hN : (bs.map (·.id)).Nodup) (hacc : ∀ b ∈ bs, lookupAssoc acc b.id = none) :
    (bs.foldl (resolveStep s) acc).length + (bs.filterMap (queueOne s)).length =
      acc.length + bs.length := by
  induction bs generalizing acc with
  | nil => simp
  | cons b rest ih =>
    simp only [List.map_cons, List.nodup_cons] at hN
    simp only [List.foldl_cons, List.filterMap_cons]
    cases hr : resolveOne s b
    · obtain ⟨n, hn, hc, hq⟩ := queueOne_of_resolveOne_none s b hr
      rw [hq, resolveStep_of_none s acc b hr]
      have := ih acc hN.2 (fun b₂ hb₂ => hacc b₂ (List.mem_cons_of_mem _ hb₂))
      simp only [List.length_cons]
      omega
    · rename_i e
      rw [queueOne_none_of_resolveOne s b e hr, resolveStep_of_some s acc b e hr]
      have hrest : ∀ b₂ ∈ rest, lookupAssoc (setAssoc acc b.id e) b₂.id = none := by
        intro b₂ hb₂
        rw [lookupAssoc_setAssoc, if_neg (fun hh => hN.1 (mem_map_id hb₂ hh))]
        exact hacc b₂ (List.mem_cons_of_mem _ hb₂)
      have := ih (setAssoc acc b.id e) hN.2 hrest
      have hlen := setAssoc_length_of_none acc b.id e (hacc b (List.mem_cons_self b rest))
      simp only [List.length_cons]
      omega

theorem initCount_add_queue (s : BatchSetup) (hN : (s.bookmarks.map (·.id)).Nodup) :
    initCount s + (queueOf s).length = s.bookmarks.length := by
  have := results0Go_length s s.bookmarks [] hN (fun b _ => rfl)
  unfold initCount results0 queueOf
  simpa using this

theorem queue_ids_sublist (s : BatchSetup) :
    ((queueOf s).map (·.id)).Sublist (s.bookmarks.map (·.id)) := by
  unfold queueOf
  induction s.bookmarks with
  | nil => simp
  | cons b rest ih =>
    simp only [List.filterMap_cons, List.map_cons]
    cases hq : queueOne s b
    · exact ih.cons _
    · rename_i q
      simp only [List.map_cons]
      rw [(resolveOne_none_of_queueOne s b q hq).2.1]
      exact ih.cons₂ _

theorem queue_ids_nodup (s : BatchSetup) (hN : (s.bookmarks.map (·.id)).Nodup) :
    ((queueOf s).map (·.id)).Nodup :=
  hN.sublist (queue_ids_sublist s)

theorem lookup_results0_queue_none (s : BatchSetup) (hN : (s.bookmarks.map (·.id)).Nodup)
    (item : Bookmark) (hitem : item ∈ queueOf s) :
    lookupAssoc (results0 s) item.id = none := by
  obtain ⟨b, hb, hq⟩ := List.mem_filterMap.1 hitem
  obtain ⟨hres, hid, -⟩ := resolveOne_none_of_queueOne s b item hq
  unfold results0
  rw [hid, results0Go_lookup_queued s s.bookmarks [] b hN hb hres]
  rfl

theorem lookup_results0_resolved (s : BatchSetup) (hN : (s.bookmarks.map (·.id)).Nodup)
    (b : Bookmark) (hb : b ∈ s.bookmarks) (e : LinkCheckResult)
    (he : resolveOne s b = some e) :
    lookupAssoc (results0 s) b.id = some e :=
  results0Go_lookup_resolved s s.bookmarks [] b e hN hb he

theorem results0_keysOk (s : BatchSetup) :
    ∀ k r, lookupAssoc (results0 s) k = some r → r.id = k :=
  results0Go_keysOk s s.bookmarks [] (fun _ r h => by cases h)

/-! ## Run invariant lemmas -/

theorem numWorkers_pos (s : BatchSetup) : 1 ≤ numWorkers s := le_max_left 1 _

theorem queue_getElem_ne (s : BatchSetup) (hq : ((queueOf s).map (·.id)).Nodup)
    {i j : Nat} {a b : Bookmark} (hi : (queueOf s)[i]? = some a)
    (hj : (queueOf s)[j]? = some b) (hij : i ≠ j) : a.id ≠ b.id := by
  intro hab
  have hi₂ : ((queueOf s).map (·.id))[i]? = some a.id := by
    rw [List.getElem?_map, hi]; rfl
  have hj₂ : ((queueOf s).map (·.id))[j]? = some b.id := by
    rw [List.getElem?_map, hj]; rfl
  rw [hab] at hi₂
  obtain ⟨hlen, -⟩ := List.getElem?_eq_some.mp hi₂
  exact hij (List.getElem?_inj hlen hq (hi₂.trans hj₂.symm))

theorem runInv_init (s : BatchSetup) (hN : (s.bookmarks.map (·.id)).Nodup) :
    RunInv s (initState s) := by
  have hmin := Nat.min_le_left (numWorkers s) (queueOf s).length
  have hminr := Nat.min_le_right (numWorkers s) (queueOf s).length
  refine ⟨?_, ?_, ?_, ?_, ?_, ?_, ?_, ?_, rfl⟩
  · show (List.range (min (numWorkers s) (queueOf s).length)).length +
      (numWorkers s - min (numWorkers s) (queueOf s).length) = numWorkers s
    rw [List.length_range]
    omega
  · show (List.range (min (numWorkers s) (queueOf s).length)).length ≤
      min (numWorkers s) (queueOf s).length
    rw [List.length_range]
  · intro i hi
    have h₂ : i < min (numWorkers s) (queueOf s).length := List.mem_range.1 hi
    exact ⟨by omega, show i < numWorkers s by omega⟩
  · show (List.range (min (numWorkers s) (queueOf s).length)).Nodup
    exact List.nodup_range _
  · intro i _ item hitem
    exact lookup_results0_queue_none s hN item (List.getElem?_mem hitem)
  · intro i _ item hitem
    exact lookup_results0_queue_none s hN item (List.getElem?_mem hitem)
  · exact results0_keysOk s
  · intro _ hcur
    have hcur₂ : numWorkers s < (queueOf s).length := hcur
    show List.range (min (numWorkers s) (queueOf s).length) ≠ []
    rw [← List.length_pos, List.length_range]
    have := numWorkers_pos s
    omega

theorem runInvNA_init (s : BatchSetup) (hN : (s.bookmarks.map (·.id)).Nodup) :
    RunInvNA s (initState s) := by
  have hC : completedCount s (initState s) = 0 := by
    show min (numWorkers s) (queueOf s).length -
      (List.range (min (numWorkers s) (queueOf s).length)).length = 0
    rw [List.length_range, Nat.sub_self]
  refine ⟨runInv_init s hN, rfl, ?_, ?_, ?_⟩
  · intro i hi hni item _
    have hi₂ : i < min (numWorkers s) (queueOf s).length := hi
    exact absurd (List.mem_range.2 hi₂) hni
  · show initCount s = initCount s + completedCount s (initState s)
    rw [hC, Nat.add_zero]
  · show [(initCount s, s.bookmarks.length)] =
      (List.range (completedCount s (initState s) + 1)).map
        (fun j => (initCount s + j, s.bookmarks.length))
    rw [hC]
    rfl

theorem runInv_step (s : BatchSetup) (st : RunState) (hq : ((queueOf s).map (·.id)).Nodup)
    (hInv : RunInv s st) (e : BatchEvent) : RunInv s (stepRun s st e) := by
  cases e with
  | abort =>
    refine ⟨hInv.wcount, hInv.flen, hInv.bound, hInv.nodupFlights, hInv.unrecorded,
      hInv.fresh, hInv.keysOk, ?_, hInv.durableEq⟩
    intro h
    exact absurd h (by simp [stepRun])
  | complete i =>
    by_cases hfl : i ∈ st.flights
    · obtain ⟨item, hitem⟩ : ∃ item, (queueOf s)[i]? = some item :=
        ⟨_, List.getElem?_eq_getElem (hInv.bound i hfl).1⟩
      have hiQ : i < (queueOf s).length := (hInv.bound i hfl).1
      have hic : i < st.cursor := (hInv.bound i hfl).2
      have hfl1 : 1 ≤ st.flights.length := List.length_pos.2 (List.ne_nil_of_mem hfl)
      have hlerase : (st.flights.erase i).length = st.flights.length - 1 :=
        List.length_erase_of_mem hfl
      have hmemerase : ∀ j, j ∈ st.flights.erase i ↔ j ≠ i ∧ j ∈ st.flights :=
        fun j => hInv.nodupFlights.mem_erase_iff
      have hflen := hInv.flen
      have hne : ∀ j, j ≠ i → ∀ item₂, (queueOf s)[j]? = some item₂ →
          item₂.id ≠ item.id :=
        fun j hj item₂ hitem₂ => queue_getElem_ne s hq hitem₂ hitem hj
      have hresults : ∀ j, j ≠ i → ∀ item₂, (queueOf s)[j]? = some item₂ →
          lookupAssoc (recordResult s st i item).results item₂.id =
            lookupAssoc st.results item₂.id := by
        intro j hj item₂ hitem₂
        unfold recordResult
        exact (lookupAssoc_setAssoc _ _ _ _).trans (if_neg (hne j hj item₂ hitem₂))
      have hkeys : ∀ k r, lookupAssoc (recordResult s st i item).results k = some r →
          r.id = k := by
        intro k r hkr
        unfold recordResult at hkr
        rw [lookupAssoc_setAssoc] at hkr
        by_cases hk : k = item.id
        · rw [if_pos hk] at hkr
          injection hkr with hkr
          rw [← hkr, hk]
        · rw [if_neg hk] at hkr
          exact hInv.keysOk k r hkr
      simp only [stepRun, if_pos hfl, hitem]
      by_cases hab : st.aborted
      · rw [if_pos hab]
        refine ⟨?_, ?_, ?_, ?_, ?_, ?_, hkeys, ?_, hInv.durableEq⟩
        · show (st.flights.erase i).length + (st.doneWorkers + 1) = numWorkers s
          have hw := hInv.wcount
          omega
        · show (st.flights.erase i).length ≤ min st.cursor (queueOf s).length
          omega
        · intro j hj
          exact hInv.bound j ((hmemerase j).1 hj).2
        · exact hInv.nodupFlights.erase i
        · intro j hj item₂ hitem₂
          rw [hresults j ((hmemerase j).1 hj).1 item₂ hitem₂]
          exact hInv.unrecorded j ((hmemerase j).1 hj).2 item₂ hitem₂
        · intro j hjc item₂ hitem₂
          have hjc₂ : st.cursor ≤ j := hjc
          have hji : j ≠ i := by omega
          rw [hresults j hji item₂ hitem₂]
          exact hInv.fresh j hjc₂ item₂ hitem₂
        · intro h
          exact absurd h (by simp [recordResult, hab])
      · rw [if_neg hab]
        by_cases hcur : st.cursor < (queueOf s).length
        · rw [if_pos hcur]
          refine ⟨?_, ?_, ?_, ?_, ?_, ?_, hkeys, ?_, hInv.durableEq⟩
          · show (st.cursor :: st.flights.erase i).length + st.doneWorkers = numWorkers s
            have hw := hInv.wcount
            rw [List.length_cons]
            omega
          · show (st.cursor :: st.flights.erase i).length ≤
              min (st.cursor + 1) (queueOf s).length
            rw [List.length_cons]
            omega
          · intro j hj
            rcases List.mem_cons.1 hj with heq | hj₂
            · exact ⟨by omega, show j < st.cursor + 1 by omega⟩
            · have hb₂ := hInv.bound j ((hmemerase j).1 hj₂).2
              exact ⟨hb₂.1, show j < st.cursor + 1 by omega⟩
          · show (st.cursor :: st.flights.erase i).Nodup
            refine List.Nodup.cons ?_ (hInv.nodupFlights.erase i)
            intro hmem
            have := (hInv.bound st.cursor ((hmemerase st.cursor).1 hmem).2).2
            omega
          · intro j hj item₂ hitem₂
            rcases List.mem_cons.1 hj with heq | hj₂
            · have hji : j ≠ i := by omega
              rw [hresults j hji item₂ hitem₂]
              exact hInv.fresh j (by omega) item₂ hitem₂
            · rw [hresults j ((hmemerase j).1 hj₂).1 item₂ hitem₂]
              exact hInv.unrecorded j ((hmemerase j).1 hj₂).2 item₂ hitem₂
          · intro j hjc item₂ hitem₂
            have hjc₂ : st.cursor + 1 ≤ j := hjc
            have hji : j ≠ i := by omega
            rw [hresults j hji item₂ hitem₂]
            exact hInv.fresh j (by omega) item₂ hitem₂
          · intro _ _
            exact List.cons_ne_nil _ _
        · rw [if_neg hcur]
          refine ⟨?_, ?_, ?_, ?_, ?_, ?_, hkeys, ?_, hInv.durableEq⟩
          · show (st.flights.erase i).length + (st.doneWorkers + 1) = numWorkers s
            have hw := hInv.wcount
            omega
          · show (st.flights.erase i).length ≤ min (st.cursor + 1) (queueOf s).length
            omega
          · intro j hj
            have hb₂ := hInv.bound j ((hmemerase j).1 hj).2
            exact ⟨hb₂.1, show j < st.cursor + 1 by omega⟩
          · exact hInv.nodupFlights.erase i
          · intro j hj item₂ hitem₂
            rw [hresults j ((hmemerase j).1 hj).1 item₂ hitem₂]
            exact hInv.unrecorded j ((hmemerase j).1 hj).2 item₂ hitem₂
          · intro j hjc item₂ hitem₂
            have hjc₂ : st.cursor + 1 ≤ j := hjc
            have hji : j ≠ i := by omega
            rw [hresults j hji item₂ hitem₂]
            exact hInv.fresh j (by omega) item₂ hitem₂
          · intro _ hc
            have hc₂ : st.cursor + 1 < (queueOf s).length := hc
            exact absurd hc₂ (by omega)
    · simpa [stepRun, hfl] using hInv

theorem mapRange_snoc {α : Type} (f : Nat → α) (n : Nat) :
    (List.range (n + 1)).map f = (List.range n).map f ++ [f n] := by
  rw [List.range_succ, List.map_append]
  rfl

theorem runInvNA_step (s : BatchSetup) (st : RunState)
    (hq : ((queueOf s).map (·.id)).Nodup) (hInv : RunInvNA s st) (e : BatchEvent)
    (he : e ≠ BatchEvent.abort) : RunInvNA s (stepRun s st e) := by
  have hab := hInv.notAborted
  cases e with
  | abort => exact absurd rfl he
  | complete i =>
    have base := runInv_step s st hq hInv.toRunInv (.complete i)
    by_cases hfl : i ∈ st.flights
    · obtain ⟨item, hitem⟩ : ∃ item, (queueOf s)[i]? = some item :=
        ⟨_, List.getElem?_eq_getElem (hInv.bound i hfl).1⟩
      have hiQ : i < (queueOf s).length := (hInv.bound i hfl).1
      have hic : i < st.cursor := (hInv.bound i hfl).2
      have hfl1 : 1 ≤ st.flights.length := List.length_pos.2 (List.ne_nil_of_mem hfl)
      have hlerase : (st.flights.erase i).length = st.flights.length - 1 :=
        List.length_erase_of_mem hfl
      have hmemerase : ∀ j, j ∈ st.flights.erase i ↔ j ≠ i ∧ j ∈ st.flights :=
        fun j => hInv.nodupFlights.mem_erase_iff
      have hflen := hInv.flen
      have hstatus : flightStatus s st i = s.env.checkStatus i := by
        unfold flightStatus
        rw [hab]
        rfl
      have hselfrec : lookupAssoc (recordResult s st i item).results item.id =
          some ⟨item.id, item.url, s.env.checkStatus i⟩ := by
        unfold recordResult
        rw [lookupAssoc_setAssoc, if_pos rfl, hstatus]
      have hresults : ∀ j, j ≠ i → ∀ item₂, (queueOf s)[j]? = some item₂ →
          lookupAssoc (recordResult s st i item).results item₂.id =
            lookupAssoc st.results item₂.id := by
        intro j hj item₂ hitem₂
        unfold recordResult
        exact (lookupAssoc_setAssoc _ _ _ _).trans
          (if_neg (queue_getElem_ne s hq hitem₂ hitem hj))
      have hprog : st.progress ++ [(st.processed + 1, s.bookmarks.length)] =
          (List.range (completedCount s st + 1 + 1)).map
            (fun j => (initCount s + j, s.bookmarks.length)) := by
        conv_rhs => rw [mapRange_snoc]
        rw [hInv.progressEq, hInv.processedEq]
        rfl
      have habne : ¬ st.aborted = true := by rw [hab]; exact Bool.false_ne_true
      simp only [stepRun, if_pos hfl, hitem] at base ⊢
      rw [if_neg habne] at base ⊢
      by_cases hcur : st.cursor < (queueOf s).length
      · rw [if_pos hcur] at base ⊢
        have hcc : completedCount s { recordResult s st i item with
            flights := st.cursor :: st.flights.erase i
            cursor := st.cursor + 1 } = completedCount s st + 1 := by
          show min (st.cursor + 1) (queueOf s).length -
            (st.cursor :: st.flights.erase i).length =
            min st.cursor (queueOf s).length - st.flights.length + 1
          rw [List.length_cons]
          omega
        refine ⟨base, hab, ?_, ?_, ?_⟩
        · intro j hj hjn item₂ hitem₂
          have hj₂ : j < min (st.cursor + 1) (queueOf s).length := hj
          have hjncons : j ∉ st.cursor :: st.flights.erase i := hjn
          by_cases hji : j = i
          · subst hji
            rw [hitem] at hitem₂
            injection hitem₂ with h₂
            subst h₂
            exact hselfrec
          · rw [hresults j hji item₂ hitem₂]
            have hjcur : j ≠ st.cursor := fun h => hjncons (h ▸ List.mem_cons_self _ _)
            have hjfl : j ∉ st.flights := fun h =>
              hjncons (List.mem_cons_of_mem _ ((hmemerase j).2 ⟨hji, h⟩))
            exact hInv.charDone j (by omega) hjfl item₂ hitem₂
        · show st.processed + 1 = initCount s + _
          rw [hcc, hInv.processedEq]
          omega
        · show st.progress ++ [(st.processed + 1, s.bookmarks.length)] = _
          rw [hcc]
          exact hprog
      · rw [if_neg hcur] at base ⊢
        have hcc : completedCount s { recordResult s st i item with
            flights := st.flights.erase i
            doneWorkers := st.doneWorkers + 1
            cursor := st.cursor + 1 } = completedCount s st + 1 := by
          show min (st.cursor + 1) (queueOf s).length - (st.flights.erase i).length =
            min st.cursor (queueOf s).length - st.flights.length + 1
          omega
        refine ⟨base, hab, ?_, ?_, ?_⟩
        · intro j hj hjn item₂ hitem₂
          have hj₂ : j < min (st.cursor + 1) (queueOf s).length := hj
          have hjnerase : j ∉ st.flights.erase i := hjn
          by_cases hji : j = i
          · subst hji
            rw [hitem] at hitem₂
            injection hitem₂ with h₂
            subst h₂
            exact hselfrec
          · rw [hresults j hji item₂ hitem₂]
            have hjfl : j ∉ st.flights := fun h => hjnerase ((hmemerase j).2 ⟨hji, h⟩)
            exact hInv.charDone j (by omega) hjfl item₂ hitem₂
        · show st.processed + 1 = initCount s + _
          rw [hcc, hInv.processedEq]
          omega
        · show st.progress ++ [(st.processed + 1, s.bookmarks.length)] = _
          rw [hcc]
          exact hprog
    · have hstep : stepRun s st (.complete i) = st := by
        simp [stepRun, hfl]
      rw [hstep]
      exact hInv

theorem runInv_fold (s : BatchSetup) (hq : ((queueOf s).map (·.id)).Nodup)
    (st : RunState) (hInv : RunInv s st) (evs : List BatchEvent) :
    RunInv s (evs.foldl (stepRun s) st) := by
  induction evs generalizing st with
  | nil => exact hInv
  | cons e evs ih => exact ih _ (runInv_step s st hq hInv e)

theorem runInvNA_fold (s : BatchSetup) (hq : ((queueOf s).map (·.id)).Nodup)
    (st : RunState) (hInv : RunInvNA s st) (evs : List BatchEvent)
    (hnoab : ∀ e ∈ evs, e ≠ BatchEvent.abort) :
    RunInvNA s (evs.foldl (stepRun s) st) := by
  induction evs generalizing st with
  | nil => exact hInv
  | cons e evs ih =>
    exact ih _ (runInvNA_step s st hq hInv e (hnoab e (List.mem_cons_self e evs)))
      (fun e₂ he₂ => hnoab e₂ (List.mem_cons_of_mem _ he₂))

theorem survive_step (s : BatchSetup) (st : RunState) (hInv : RunInv s st)
    (e : BatchEvent) (k : String) (r : LinkCheckResult)
    (h : lookupAssoc st.results k = some r) :
    lookupAssoc (stepRun s st e).results k = some r := by
  cases e with
  | abort => exact h
  | complete i =>
    by_cases hfl : i ∈ st.flights
    · obtain ⟨item, hitem⟩ : ∃ item, (queueOf s)[i]? = some item :=
        ⟨_, List.getElem?_eq_getElem (hInv.bound i hfl).1⟩
      have hrec : lookupAssoc (recordResult s st i item).results k = some r := by
        unfold recordResult
        rw [lookupAssoc_setAssoc]
        have hk : k ≠ item.id := by
          intro hk
          rw [hk, hInv.unrecorded i hfl item hitem] at h
          cases h
        rw [if_neg hk]
        exact h
      simp only [stepRun, if_pos hfl, hitem]
      split_ifs <;> exact hrec
    · simp only [stepRun, if_pos hfl]
      simp only [stepRun, hfl]
      exact h

theorem survive_fold (s : BatchSetup) (hq : ((queueOf s).map (·.id)).Nodup)
    (st : RunState) (hInv : RunInv s st) (evs : List BatchEvent) (k : String)
    (r : LinkCheckResult) (h : lookupAssoc st.results k = some r) :
    lookupAssoc ((evs.foldl (stepRun s) st)).results k = some r := by
  induction evs generalizing st with
  | nil => exact h
  | cons e evs ih =>
    exact ih _ (runInv_step s st hq hInv e) (survive_step s st hInv e k r h)

theorem stepRun_durable (s : BatchSetup) (st : RunState) (e : BatchEvent) :
    (stepRun s st e).durable = st.durable := by
  cases e with
  | abort => rfl
  | complete i =>
    by_cases hfl : i ∈ st.flights
    · cases hitem : (queueOf s)[i]? with
      | none => simp [stepRun, hfl, hitem]
      | some item =>
        simp only [stepRun, if_pos hfl, hitem]
        split_ifs <;> rfl
    · simp [stepRun, hfl]

theorem fold_durable (s : BatchSetup) (st : RunState) (evs : List BatchEvent) :
    (evs.foldl (stepRun s) st).durable = st.durable := by
  induction evs generalizing st with
  | nil => rfl
  | cons e evs ih => rw [List.foldl_cons, ih, stepRun_durable]

theorem runBatch_durable (s : BatchSetup) (evs : List BatchEvent) :
    (runBatch s evs).durable = s.blob :=
  fold_durable s (initState s) evs

theorem stepRun_aborted_mono (s : BatchSetup) (st : RunState) (e : BatchEvent)
    (h : st.aborted = true) : (stepRun s st e).aborted = true := by
  cases e with
  | abort => rfl
  | complete i =>
    by_cases hfl : i ∈ st.flights
    · cases hitem : (queueOf s)[i]? with
      | none => simpa [stepRun, hfl, hitem] using h
      | some item =>
        simp only [stepRun, if_pos hfl, hitem]
        split_ifs
        all_goals exact h
    · simpa [stepRun, hfl] using h

theorem fold_aborted_mono (s : BatchSetup) (st : RunState) (evs : List BatchEvent)
    (h : st.aborted = true) : (evs.foldl (stepRun s) st).aborted = true := by
  induction evs generalizing st with
  | nil => exact h
  | cons e evs ih => exact ih _ (stepRun_aborted_mono s st e h)

theorem fold_aborted_of_mem (s : BatchSetup) (st : RunState) (evs : List BatchEvent)
    (h : BatchEvent.abort ∈ evs) : (evs.foldl (stepRun s) st).aborted = true := by
  induction evs generalizing st with
  | nil => cases h
  | cons e evs ih =>
    rcases List.mem_cons.1 h with rfl | h₂
    · exact fold_aborted_mono s _ evs rfl
    · exact ih _ h₂

theorem final_cursor_ge (s : BatchSetup) (st : RunState) (hInv : RunInvNA s st)
    (hdone : st.flights = []) : (queueOf s).length ≤ st.cursor := by
  by_contra h
  exact hInv.live hInv.notAborted (by omega) hdone

theorem final_completedCount (s : BatchSetup) (st : RunState) (hInv : RunInvNA s st)
    (hdone : st.flights = []) : completedCount s st = (queueOf s).length := by
  have := final_cursor_ge s st hInv hdone
  unfold completedCount
  rw [hdone]
  simp only [List.length_nil]
  omega

theorem final_charDone (s : BatchSetup) (st : RunState) (hInv : RunInvNA s st)
    (hdone : st.flights = []) :
    ∀ i item, (queueOf s)[i]? = some item →
      lookupAssoc st.results item.id =
        some ⟨item.id, item.url, s.env.checkStatus i⟩ := by
  intro i item hitem
  have hge := final_cursor_ge s st hInv hdone
  obtain ⟨hi, -⟩ := List.getElem?_eq_some.mp hitem
  refine hInv.charDone i (by omega) ?_ item hitem
  rw [hdone]
  exact List.not_mem_nil i

theorem output_getElem? (s : BatchSetup) (st : RunState) (j : Nat) :
    (output s st)[j]? = (s.bookmarks[j]?).map
      (fun b => (lookupAssoc st.results b.id).getD ⟨b.id, b.url, .dead⟩) := by
  unfold output
  exact List.getElem?_map _ _ _

/-! ## Claim theorems -/

theorem getFallback_ne_unknown (env : ClientNetEnv) (counts : NetCounts) :
    (getFallback env counts).1 ≠ InternalLinkHealthStatus.unknown := by
  unfold getFallback
  cases env.get with
  | resp o status u =>
    dsimp only
    split_ifs with h
    · exact h
    · simp
  | abortErr => simp
  | netErr m => simp

/-- C1: for every input url and every combination of network outcomes (API
success, API failure, HEAD response of any classification, HEAD abort/error,
GET fallback of any outcome, abort, timeout), the client `checkLinkHealth`
terminates in `ok` or `dead` — never `unknown`, and no code path escapes
without a value (every exception in the source is caught). -/
theorem checkLinkHealth_never_unknown (env : ClientNetEnv)
    (parse : String → Option UrlParts) (url : String) :
    (checkLinkHealthClient env parse url).1 ≠ InternalLinkHealthStatus.unknown := by
  unfold checkLinkHealthClient
  cases hn : normalizeUrl parse url with
  | none => simp
  | some normalized =>
    dsimp only
    rcases hapi : checkLinkHealthViaApi env parse normalized with ⟨a, apiCalls⟩
    cases a with
    | some st₀ =>
      dsimp only
      cases st₀ <;> simp [LinkHealthStatus.toInternal]
    | none =>
      cases hh : env.head with
      | resp o status u =>
        dsimp only
        split_ifs with h₁ h₂
        · exact h₁
        · exact getFallback_ne_unknown env _
        · simp
      | abortErr => simp
      | netErr m => exact getFallback_ne_unknown env _

/-- C5: the pure status-code classification is the same on client
(`classifyResponse`, non-opaque responses) and server (`classifyStatus`),
both agree with the spec's table (`specClassify`) at every status code,
and the table's sample points evaluate as stated: 404/410/401/403 → dead,
500/503 (and everything ≥ 500) → dead, 200/204/301 (and all of 200–399) →
ok, 100 (anything else) → unknown. -/
theorem classify_client_server_agree :
    (∀ status : Nat, classifyResponse false status = classifyStatus status) ∧
    (∀ status : Nat, classifyStatus status = specClassify status) ∧
    classifyStatus 404 = .dead ∧ classifyStatus 410 = .dead ∧
    classifyStatus 401 = .dead ∧ classifyStatus 403 = .dead ∧
    classifyStatus 500 = .dead ∧ classifyStatus 503 = .dead ∧
    classifyStatus 200 = .ok ∧ classifyStatus 301 = .ok ∧ classifyStatus 204 = .ok ∧
    classifyStatus 100 = .unknown := by
  refine ⟨fun status => rfl, fun status => ?_, by decide, by decide, by decide,
    by decide, by decide, by decide, by decide, by decide, by decide, by decide⟩
  unfold classifyStatus specClassify
  split_ifs <;> first | rfl | omega

/-- C6: when the initial HEAD attempt of the single-link check times out
(abort signal fired), no GET request goes out on the network, and the
result is `dead` on the client but `unknown` with error `"timeout"` on the
server. -/
theorem head_timeout_no_get :
    (∀ (env : ClientNetEnv) (parse : String → Option UrlParts) (url n : String),
      normalizeUrl parse url = some n → env.api = none →
      env.head = FetchOutcome.abortErr →
      (checkLinkHealthClient env parse url).1 = .dead ∧
      (checkLinkHealthClient env parse url).2.get = 0) ∧
    (∀ env : ServerNetEnv, env.head = FetchOutcome.abortErr →
      serverCheckLinkHealth env =
        ({ status := .unknown, error := some "timeout" }, 0)) := by
  constructor
  · intro env parse url n hn hapi hhead
    unfold checkLinkHealthClient checkLinkHealthViaApi
    rw [hn]
    dsimp only
    cases hnn : normalizeUrl parse n
    · dsimp only
      rw [hhead]
      exact ⟨rfl, rfl⟩
    · dsimp only
      rw [hapi]
      dsimp only
      rw [hhead]
      exact ⟨rfl, rfl⟩
  · intro env hhead
    unfold serverCheckLinkHealth
    rw [hhead]

theorem head_timeout_no_get_witness :
    (checkLinkHealthClient timeoutClientEnv demoParse "example.com").1 = .dead ∧
    (checkLinkHealthClient timeoutClientEnv demoParse "example.com").2.get = 0 ∧
    serverCheckLinkHealth ⟨.abortErr, .resp false 200 "https://example.com/"⟩ =
      ({ status := .unknown, error := some "timeout" }, 0) :=
  ⟨(head_timeout_no_get.1 timeoutClientEnv demoParse "example.com"
      "https://example.com/" (by decide) rfl rfl).1,
   (head_timeout_no_get.1 timeoutClientEnv demoParse "example.com"
      "https://example.com/" (by decide) rfl rfl).2,
   head_timeout_no_get.2 _ rfl⟩

/-- C7: for every valid url, the endpoint in `mode=auto` runs the HTTP
check first; an `ok`/`dead` HTTP result is returned directly (no TCP probe
runs), and only an `unknown` HTTP result triggers the TCP probe — with its
timeout capped at 3000 ms — whose result is returned with the HTTP attempt
attached as `httpFallback`. -/
theorem endpoint_auto_flow (env : EndpointEnv) (parse : String → Option UrlParts)
    (rawUrl n : String) (timeoutParam : Option Nat)
    (hn : normalizeUrl parse rawUrl = some n) :
    ((serverCheckLinkHealth env.http).1.status ≠ .unknown →
      linkHealthEndpoint env parse (some rawUrl) (some "auto") timeoutParam =
        (.httpResp n "auto" (serverCheckLinkHealth env.http).1, 1, 0)) ∧
    ((serverCheckLinkHealth env.http).1.status = .unknown →
      linkHealthEndpoint env parse (some rawUrl) (some "auto") timeoutParam =
        (.autoTcpResp n (env.tcp (min (resolveTimeout timeoutParam) 3000))
          (serverCheckLinkHealth env.http).1, 1, 1)) := by
  have hmode : jsToLower ((some "auto").getD "auto") = "auto" := by decide
  unfold linkHealthEndpoint
  rw [show (some rawUrl).getD "" = rawUrl from rfl, hn]
  dsimp only
  rw [hmode, if_neg (by decide : ¬ ("auto" = "tcp" ∨ "auto" = "ping")),
    if_neg (by decide : ¬ "auto" = "http")]
  constructor
  · intro h
    rw [if_neg h]
  · intro h
    rw [if_pos h]

theorem endpoint_auto_flow_witness :
    linkHealthEndpoint
        ⟨⟨.resp false 200 "https://example.com/", .resp false 200 "https://example.com/"⟩,
          fun _ => ⟨.ok, some 443, none⟩⟩
        demoParse (some "example.com") (some "auto") (some 6000) =
      (.httpResp "https://example.com/" "auto"
        ⟨.ok, some 200, some "https://example.com/", none⟩, 1, 0) ∧
    linkHealthEndpoint
        ⟨⟨.resp false 100 "https://example.com/", .abortErr⟩,
          fun _ => ⟨.ok, some 443, none⟩⟩
        demoParse (some "example.com") (some "auto") none =
      (.autoTcpResp "https://example.com/" ⟨.ok, some 443, none⟩
        ⟨.unknown, some 100, some "https://example.com/", none⟩, 1, 1) :=
  ⟨(endpoint_auto_flow _ demoParse "example.com" "https://example.com/" (some 6000)
      (by decide)).1 (by decide),
   (endpoint_auto_flow _ demoParse "example.com" "https://example.com/" none
      (by decide)).2 (by decide)⟩

/-- C8: every input that is empty/whitespace or unparseable as an
http/https URL (even after prepending `https://`) makes the client
`checkLinkHealth` return `dead` immediately, with zero network requests of
any kind (no API call, no HEAD, no GET). -/
theorem invalid_url_dead_no_network (env : ClientNetEnv)
    (parse : String → Option UrlParts) (url : String)
    (h : normalizeUrl parse url = none) :
    checkLinkHealthClient env parse url = (.dead, ⟨0, 0, 0⟩) := by
  unfold checkLinkHealthClient
  rw [h]

theorem invalid_url_dead_no_network_witness :
    normalizeUrl demoParse "not a url!!" = none ∧
    checkLinkHealthClient demoClientEnv demoParse "not a url!!" = (.dead, ⟨0, 0, 0⟩) ∧
    normalizeUrl demoParse "   " = none ∧
    checkLinkHealthClient demoClientEnv demoParse "   " = (.dead, ⟨0, 0, 0⟩) :=
  ⟨by decide, invalid_url_dead_no_network demoClientEnv demoParse _ (by decide),
   by decide, invalid_url_dead_no_network demoClientEnv demoParse _ (by decide)⟩

/-- C2 counterexample: the all-cached run of spec §8's own example (5
targets, all fresh in cache).  The run completes un-aborted with the full
processed count of 5, but `onProgress` is invoked once — `[(5, 5)]` — not 5
times, refuting "invoked exactly `targets.length` times". -/
theorem progress_calls_counterexample :
    (runBatch allCachedSetup []).aborted = false ∧
    (runBatch allCachedSetup []).flights = [] ∧
    allCachedSetup.bookmarks.length = 5 ∧
    (runBatch allCachedSetup []).processed = 5 ∧
    (runBatch allCachedSetup []).progress = [(5, 5)] ∧
    ¬ (runBatch allCachedSetup []).progress.length = 5 := by decide

/-- C2 (amended): for every completed non-aborted run over targets with
distinct ids, `onProgress` is invoked exactly `queueLength + 1` times: once
up front for all cache/invalid-resolved targets together, then once per
actively checked target.  The reported processed counts are exactly
`initCount, initCount+1, …, N` — monotonically increasing with final value
`N = targets.length`. -/
theorem batch_progress_calls (s : BatchSetup) (hN : (s.bookmarks.map (·.id)).Nodup)
    (evs : List BatchEvent) (hnoab : BatchEvent.abort ∉ evs)
    (hdone : (runBatch s evs).flights = []) :
    (runBatch s evs).processed = s.bookmarks.length ∧
    (runBatch s evs).progress =
      (List.range ((queueOf s).length + 1)).map
        (fun j => (initCount s + j, s.bookmarks.length)) ∧
    (runBatch s evs).progress.length = (queueOf s).length + 1 := by
  have hq := queue_ids_nodup s hN
  have hInv : RunInvNA s (runBatch s evs) :=
    runInvNA_fold s hq _ (runInvNA_init s hN) evs
      (fun e he => by rintro rfl; exact hnoab he)
  have hcc := final_completedCount s _ hInv hdone
  refine ⟨?_, ?_, ?_⟩
  · rw [hInv.processedEq, hcc]
    have := initCount_add_queue s hN
    omega
  · rw [hInv.progressEq, hcc]
  · rw [hInv.progressEq, hcc, List.length_map, List.length_range]

theorem batch_progress_calls_witness :
    (runBatch mixedSetup [.complete 0]).processed = 2 ∧
    (runBatch mixedSetup [.complete 0]).progress = [(1, 2), (2, 2)] := by
  have h := batch_progress_calls mixedSetup (by decide) [.complete 0] (by decide)
    (by decide)
  exact ⟨h.1, h.2.1.trans (by decide)⟩

/-- C3: when the external signal fires mid-run, the returned array still has
one entry per input target in input order; every result recorded before the
abort (targets completed before the signal, plus all partition-resolved
targets) survives unchanged into the output — completions before the abort
carry their live check status — every target never recorded comes back as
the `dead` placeholder over its raw url, and the stored durable cache blob
is exactly the one read at entry (`writeCache` is skipped). -/
theorem batch_abort_semantics (s : BatchSetup) (hN : (s.bookmarks.map (·.id)).Nodup)
    (preEvs postEvs : List BatchEvent) (hpre : BatchEvent.abort ∉ preEvs) :
    (output s (runBatch s (preEvs ++ BatchEvent.abort :: postEvs))).length =
      s.bookmarks.length ∧
    (∀ j : Nat, ((output s (runBatch s (preEvs ++ BatchEvent.abort :: postEvs)))[j]?).map
        (·.id) = (s.bookmarks[j]?).map (·.id)) ∧
    (∀ (j : Nat) (b : Bookmark), s.bookmarks[j]? = some b →
      lookupAssoc (runBatch s (preEvs ++ BatchEvent.abort :: postEvs)).results b.id =
        none →
      (output s (runBatch s (preEvs ++ BatchEvent.abort :: postEvs)))[j]? =
        some ⟨b.id, b.url, .dead⟩) ∧
    (∀ (j : Nat) (b : Bookmark) (r : LinkCheckResult), s.bookmarks[j]? = some b →
      lookupAssoc (runBatch s preEvs).results b.id = some r →
      (output s (runBatch s (preEvs ++ BatchEvent.abort :: postEvs)))[j]? = some r) ∧
    (∀ (i : Nat) (item : Bookmark), (queueOf s)[i]? = some item →
      i < min (runBatch s preEvs).cursor (queueOf s).length →
      i ∉ (runBatch s preEvs).flights →
      lookupAssoc (runBatch s preEvs).results item.id =
        some ⟨item.id, item.url, s.env.checkStatus i⟩) ∧
    finalDurable s (runBatch s (preEvs ++ BatchEvent.abort :: postEvs)) = s.blob := by
  have hq := queue_ids_nodup s hN
  have hpreInv : RunInvNA s (runBatch s preEvs) :=
    runInvNA_fold s hq _ (runInvNA_init s hN) preEvs
      (fun e he => by rintro rfl; exact hpre he)
  have hsplit : runBatch s (preEvs ++ BatchEvent.abort :: postEvs) =
      postEvs.foldl (stepRun s) (stepRun s (runBatch s preEvs) .abort) := by
    unfold runBatch
    rw [List.foldl_append, List.foldl_cons]
  have habInv : RunInv s (stepRun s (runBatch s preEvs) .abort) :=
    runInv_step s _ hq hpreInv.toRunInv .abort
  have hfinInv : RunInv s (runBatch s (preEvs ++ BatchEvent.abort :: postEvs)) := by
    rw [hsplit]
    exact runInv_fold s hq _ habInv postEvs
  refine ⟨?_, ?_, ?_, ?_, ?_, ?_⟩
  · unfold output
    exact List.length_map _ _
  · intro j
    rw [output_getElem?]
    cases hb : s.bookmarks[j]? with
    | none => rfl
    | some b =>
      simp only [Option.map_some']
      cases hr : lookupAssoc
          (runBatch s (preEvs ++ BatchEvent.abort :: postEvs)).results b.id with
      | none => rfl
      | some r =>
        simp only [Option.getD_some]
        rw [hfinInv.keysOk b.id r hr]
  · intro j b hb hnone
    rw [output_getElem?, hb]
    simp only [Option.map_some']
    rw [hnone]
    rfl
  · intro j b r hb hr
    have hstep := survive_step s _ hpreInv.toRunInv .abort b.id r hr
    have hfin : lookupAssoc
        (runBatch s (preEvs ++ BatchEvent.abort :: postEvs)).results b.id = some r := by
      rw [hsplit]
      exact survive_fold s hq _ habInv postEvs b.id r hstep
    rw [output_getElem?, hb]
    simp only [Option.map_some']
    rw [hfin]
    rfl
  · intro i item hitem hilt hnin
    exact hpreInv.charDone i hilt hnin item hitem
  · have hab : (runBatch s (preEvs ++ BatchEvent.abort :: postEvs)).aborted = true :=
      fold_aborted_of_mem s _ _ (by simp)
    unfold finalDurable
    rw [hab]
    simp only [if_true]
    exact runBatch_durable s _

theorem batch_abort_semantics_witness :
    output abortSetup (runBatch abortSetup abortSchedule) =
      [⟨"a", "https://a.example/", .ok⟩, ⟨"b", "https://b.example/", .ok⟩,
       ⟨"c", "https://c.example/", .dead⟩, ⟨"d", "d.example", .dead⟩,
       ⟨"e", "e.example", .dead⟩] ∧
    finalDurable abortSetup (runBatch abortSetup abortSchedule) = some [] := by
  have h := batch_abort_semantics abortSetup (by decide)
    [.complete 0, .complete 1] [.complete 2] (by decide)
  exact ⟨by decide, h.2.2.2.2.2⟩

/-- C4 counterexample: one uncached target, one completed check.  After the
check completes the in-memory map holds the fresh entry and `processed` has
advanced, yet the durable blob is still the one read at entry and does not
contain the entry — the entry was NOT "written to the durable cache
immediately after that individual check completes". -/
theorem durable_write_immediate_counterexample :
    (runBatch oneUncachedSetup [.complete 0]).processed = 1 ∧
    lookupAssoc (runBatch oneUncachedSetup [.complete 0]).cache
      "https://a.example/" = some ⟨.ok, 2000⟩ ∧
    (runBatch oneUncachedSetup [.complete 0]).durable =
      some [("https://old.example/", ⟨.ok, 5⟩)] ∧
    lookupAssoc ((runBatch oneUncachedSetup [.complete 0]).durable.getD [])
      "https://a.example/" = none := by decide

/-- C4 (amended): cache entries are recorded immediately per check only in
the in-memory map; the durable store is untouched during the whole run
(after any schedule the stored blob equals the one read at entry), and the
final persistence step after all workers finish writes it exactly once —
and only when the run was not aborted. -/
theorem durable_write_once_at_end (s : BatchSetup) (evs : List BatchEvent) :
    (runBatch s evs).durable = s.blob ∧
    durableWrites (runBatch s evs) = (if (runBatch s evs).aborted then 0 else 1) ∧
    finalDurable s (runBatch s evs) =
      (if (runBatch s evs).aborted then s.blob else some (runBatch s evs).cache) := by
  refine ⟨runBatch_durable s evs, rfl, ?_⟩
  unfold finalDurable
  rw [runBatch_durable s evs]

/-- C9 counterexample: two targets, both served from fresh cache.  The
queue is empty, so "exactly min(concurrency, queueLength,
requestedConcurrency)" would be 0 workers, yet the source launches
`max(1, min(20, 2)) = 2` workers. -/
theorem worker_count_counterexample :
    (queueOf twoCachedSetup).length = 0 ∧
    numWorkers twoCachedSetup = 2 ∧
    (initState twoCachedSetup).flights.length +
      (initState twoCachedSetup).doneWorkers = 2 ∧
    ¬ numWorkers twoCachedSetup =
      Nat.min (Nat.min 20 (queueOf twoCachedSetup).length) 20 := by decide

/-- C9 (amended): `batchCheckLinks` launches exactly
`max(1, min(requestedConcurrency ?? 20, total targets, or 1 when there are
no targets))` workers — a function of the total target count, independent
of the queue length — and the worker count is conserved throughout every
run (in-flight plus exited workers). -/
theorem worker_count_formula (s : BatchSetup) (hN : (s.bookmarks.map (·.id)).Nodup)
    (evs : List BatchEvent) :
    numWorkers s = max 1 (min (s.requested.getD 20)
      (if s.bookmarks.length = 0 then 1 else s.bookmarks.length)) ∧
    (runBatch s evs).flights.length + (runBatch s evs).doneWorkers = numWorkers s :=
  ⟨rfl, (runInv_fold s (queue_ids_nodup s hN) _ (runInv_init s hN) evs).wcount⟩

theorem worker_count_formula_witness :
    numWorkers twoCachedSetup = 2 ∧
    (runBatch twoCachedSetup []).flights.length +
      (runBatch twoCachedSetup []).doneWorkers = 2 := by
  have h := worker_count_formula twoCachedSetup (by decide) []
  exact ⟨by decide, h.2.trans (by decide)⟩

/-- C10: in every completed non-aborted run over targets with distinct ids,
the result's `url` field is not uniform: a target resolved without network
work (invalid URL or fresh cache hit) echoes the raw input url in its
result, while a target that went through a worker carries the normalized
URL instead of the raw string. -/
theorem batch_result_url_fields (s : BatchSetup) (hN : (s.bookmarks.map (·.id)).Nodup)
    (evs : List BatchEvent) (hnoab : BatchEvent.abort ∉ evs)
    (hdone : (runBatch s evs).flights = []) :
    ∀ (j : Nat) (b : Bookmark), s.bookmarks[j]? = some b →
      (∀ e : LinkCheckResult, resolveOne s b = some e →
        (output s (runBatch s evs))[j]? = some e ∧ e.url = b.url) ∧
      (resolveOne s b = none →
        ∃ st₀, (output s (runBatch s evs))[j]? =
          some ⟨b.id, (normalizeUrl s.parse b.url).getD "", st₀⟩) := by
  intro j b hb
  have hq := queue_ids_nodup s hN
  have hInv : RunInvNA s (runBatch s evs) :=
    runInvNA_fold s hq _ (runInvNA_init s hN) evs
      (fun e he => by rintro rfl; exact hnoab he)
  constructor
  · intro e he
    have h₀ : lookupAssoc (results0 s) b.id = some e :=
      lookup_results0_resolved s hN b (List.getElem?_mem hb) e he
    have hfin : lookupAssoc (runBatch s evs).results b.id = some e :=
      survive_fold s hq _ (runInv_init s hN) evs b.id e h₀
    refine ⟨?_, (resolveOne_fields s b e he).2⟩
    rw [output_getElem?, hb]
    simp only [Option.map_some']
    rw [hfin]
    rfl
  · intro he
    obtain ⟨n, hn, hc, hq₀⟩ := queueOne_of_resolveOne_none s b he
    have hmem : (⟨b.id, n⟩ : Bookmark) ∈ queueOf s :=
      List.mem_filterMap.2 ⟨b, List.getElem?_mem hb, hq₀⟩
    obtain ⟨i, hi⟩ := List.mem_iff_getElem?.mp hmem
    have hchar := final_charDone s _ hInv hdone i _ hi
    refine ⟨s.env.checkStatus i, ?_⟩
    rw [output_getElem?, hb]
    simp only [Option.map_some']
    rw [hn]
    rw [show lookupAssoc (runBatch s evs).results b.id =
      some ⟨b.id, n, s.env.checkStatus i⟩ from hchar]
    rfl

theorem batch_result_url_fields_witness :
    (output mixedSetup (runBatch mixedSetup [.complete 0]))[1]? =
      some ⟨"c", "cached.example", .ok⟩ ∧
    (output mixedSetup (runBatch mixedSetup [.complete 0]))[0]? =
      some ⟨"w", "https://example.com/", .ok⟩ ∧
    normalizeUrl demoParse "example.com" = some "https://example.com/" := by
  have h := batch_result_url_fields mixedSetup (by decide) [.complete 0] (by decide)
    (by decide)
  exact ⟨((h 1 ⟨"c", "cached.example"⟩ rfl).1 ⟨"c", "cached.example", .ok⟩
    (by decide)).1, by decide, by decide⟩

end LinkHealth
